import Mathlib

/-!
Verification of the Society simulation kernel against its specification.

The Python sources are shallowly embedded: dictionaries become association
lists, floats become rationals (ℚ), and the pseudo-random draws of
`random.random()` / `random.randint` become explicit parameters, so every
definition stays computable and decidable on concrete inputs.
-/

namespace Society

/-! ## Association-list primitives

Python `dict` operations used by the sources: membership/lookup, keyed
assignment (overwrite), and `del`.  Keys in the embedded states are unique,
so erasing every binding of a key models `del d[k]`. -/

def alGet {κ α : Type} [DecidableEq κ] : List (κ × α) → κ → Option α
  | [], _ => none
  | (k', v) :: rest, k => if k' = k then some v else alGet rest k

def alSet {κ α : Type} [DecidableEq κ] : List (κ × α) → κ → α → List (κ × α)
  | [], k, v => [(k, v)]
  | (k', v') :: rest, k, v =>
      if k' = k then (k, v) :: rest else (k', v') :: alSet rest k v

def alErase {κ α : Type} [DecidableEq κ] : List (κ × α) → κ → List (κ × α)
  | [], _ => []
  | (k', v') :: rest, k =>
      if k' = k then alErase rest k else (k', v') :: alErase rest k

/-! ## EntityStore (src/core/ecs/core.py, class ECS)

`Component` carries the `entity_id` field that `add_component` assigns
(`component.entity_id = entity_id`) plus an opaque payload.  Systems are
embedded as opaque identifiers; `add_system` receives the lookup name as a
parameter because the Python derives it from the runtime class name. -/

structure Component where
  entity_id : Nat
  data : Nat
deriving DecidableEq, Repr

structure ECS where
  entities : List Nat
  components : List (String × List (Nat × Component))
  systems : List Nat
  systems_by_name : List (String × Nat)
  nextId : Nat
deriving DecidableEq, Repr

def ECS.init : ECS := ⟨[], [], [], [], 0⟩

/-- Modelled from the spec: `src/core/ecs/entity.py` (the `Entity` class whose
constructor assigns ids) is absent from the sources; per the spec,
`create_entity()` returns an id unused by any currently-live entity, embedded
here as a monotone counter. -/
def ECS.create_entity (s : ECS) : Nat × ECS :=
  (s.nextId, { s with entities := s.entities ++ [s.nextId], nextId := s.nextId + 1 })

/-- The loop body of `delete_entity`: for every component kind, drop the
deleted entity's entry from that kind's table. -/
def eraseAllKinds : List (String × List (Nat × Component)) → Nat → List (String × List (Nat × Component))
  | [], _ => []
  | (k, tbl) :: rest, eid => (k, alErase tbl eid) :: eraseAllKinds rest eid

def ECS.delete_entity (s : ECS) (eid : Nat) : ECS :=
  if eid ∈ s.entities then
    { s with
      components := eraseAllKinds s.components eid,
      entities := s.entities.erase eid }
  else s

/-- `add_component` writes into the per-kind table unconditionally (creating
the kind table on first use) after assigning `component.entity_id`.  The
mirror write into the live `Entity` object's own dict happens only when the
id is live, and is never read back by `get_component`, so it is not part of
the observable state. -/
def ECS.add_component (s : ECS) (eid : Nat) (ctype : String) (c : Component) : ECS :=
  let tbl := (alGet s.components ctype).getD []
  { s with components := alSet s.components ctype (alSet tbl eid { c with entity_id := eid }) }

def ECS.get_component (s : ECS) (eid : Nat) (ctype : String) : Option Component :=
  match alGet s.components ctype with
  | some tbl => alGet tbl eid
  | none => none

def ECS.add_system (s : ECS) (name : String) (sys : Nat) : ECS :=
  { s with
    systems := s.systems ++ [sys],
    systems_by_name := alSet s.systems_by_name name sys }

def ECS.addSystems (s : ECS) (l : List (String × Nat)) : ECS :=
  l.foldl (fun acc p => acc.add_system p.1 p.2) s

/-- `update(dt)` calls `system.update(dt)` for each registered system in
list order; the embedded result is the trace of those invocations. -/
def ECS.update (s : ECS) (dt : ℚ) : List (Nat × ℚ) :=
  s.systems.map (fun sys => (sys, dt))

/-! ## Decision engine (src/agent/network.py)

The network arithmetic runs on rationals.  `np.max` / `np.argmax` over the
1-d q-value row become `listMax` / `argmaxIdx`; `np.argmax` returns the
FIRST index attaining the maximum, which `argmaxIdx` reproduces by letting
an earlier element win ties. -/

def listMax : List ℚ → ℚ
  | [] => 0
  | [a] => a
  | a :: b :: rest => max a (listMax (b :: rest))

def argmaxIdx : List ℚ → Nat
  | [] => 0
  | [_] => 0
  | a :: b :: rest => if listMax (b :: rest) > a then argmaxIdx (b :: rest) + 1 else 0

/-- `DQNetwork.encode_state`: the state dict (embedded as an association
list) is turned into four one-hot groups of three; each if/elif chain falls
through to the last bucket for missing or unrecognized values. -/
def DQNetwork.encode_state (d : List (String × String)) : List ℚ :=
  (if alGet d "hunger" = some "low" then [(1 : ℚ), 0, 0]
   else if alGet d "hunger" = some "medium" then [0, 1, 0]
   else [0, 0, 1]) ++
  (if alGet d "energy" = some "low" then [(1 : ℚ), 0, 0]
   else if alGet d "energy" = some "medium" then [0, 1, 0]
   else [0, 0, 1]) ++
  (if alGet d "money" = some "low" then [(1 : ℚ), 0, 0]
   else if alGet d "money" = some "medium" then [0, 1, 0]
   else [0, 0, 1]) ++
  (if alGet d "mood" = some "negative" then [(1 : ℚ), 0, 0]
   else if alGet d "mood" = some "neutral" then [0, 1, 0]
   else [0, 0, 1])

def isOneHot3 (g : List ℚ) : Prop :=
  g = [1, 0, 0] ∨ g = [0, 1, 0] ∨ g = [0, 0, 1]

/-- `DQNetwork.select_action`: `r` is the `random.random()` draw (uniform on
`[0,1)`), `randIdx` the `random.randint(0, action_size - 1)` draw (uniform
over action indices), and `q_values` the row `main_network.forward(...)`
produces for the encoded state. -/
def DQNetwork.select_action (exploration_rate r : ℚ) (randIdx : Nat) (q_values : List ℚ) : Nat :=
  if r < exploration_rate then randIdx else argmaxIdx q_values

/-- The target-vector computation inside `DQNetwork.train`: `current_q` is
`main_network.forward(state_vector)` and `next_q` is
`target_network.forward(next_state_vector)`; the copy of `current_q` is
overwritten at the selected action's index only. -/
def DQNetwork.train_target (current_q next_q : List ℚ) (action : Nat)
    (reward γ : ℚ) (done : Bool) : List ℚ :=
  current_q.set action (if done then reward else reward + γ * listMax next_q)

def DQNetwork.epsilon_min : ℚ := 1 / 100

def DQNetwork.epsilon_decay : ℚ := 995 / 1000

/-- The epsilon update at the end of `DQNetwork.train`:
`if self.epsilon > self.epsilon_min: self.epsilon *= self.epsilon_decay`. -/
def DQNetwork.decay_epsilon (e : ℚ) : ℚ :=
  if e > DQNetwork.epsilon_min then e * DQNetwork.epsilon_decay else e

/-! ## NeuralNetwork parameters and serialization (src/agent/network.py)

`forward` is a two-layer pass: row-vector times matrix plus bias, then the
activation applied elementwise, twice.  The float `sigmoid(x) = 1/(1+e^-x)`
is not rational-valued, so the activation is an explicit parameter `σ` and
every theorem quantifies over it; the serialization claim depends only on
the parameter fields, never on the activation's values. -/

def vecAdd (a b : List ℚ) : List ℚ := (a.zip b).map (fun p => p.1 + p.2)

def scale (c : ℚ) (v : List ℚ) : List ℚ := v.map (fun x => c * x)

/-- Row vector times matrix, the matrix stored as its list of rows. -/
def rowVecMat : List ℚ → List (List ℚ) → List ℚ
  | [v], [row] => scale v row
  | v :: vrest, row :: wrest => vecAdd (scale v row) (rowVecMat vrest wrest)
  | _, _ => []

structure NeuralNetwork where
  weights_input_hidden : List (List ℚ)
  weights_hidden_output : List (List ℚ)
  bias_hidden : List ℚ
  bias_output : List ℚ
  learning_rate : ℚ
deriving DecidableEq, Repr

/-- The four arrays `NeuralNetwork.save` writes (`np.savez` keys). -/
structure SavedParams where
  w_input_hidden : List (List ℚ)
  w_hidden_output : List (List ℚ)
  b_hidden : List ℚ
  b_output : List ℚ
deriving DecidableEq, Repr

def NeuralNetwork.save (nn : NeuralNetwork) : SavedParams :=
  ⟨nn.weights_input_hidden, nn.weights_hidden_output, nn.bias_hidden, nn.bias_output⟩

def NeuralNetwork.load (nn : NeuralNetwork) (d : SavedParams) : NeuralNetwork :=
  { nn with
    weights_input_hidden := d.w_input_hidden,
    weights_hidden_output := d.w_hidden_output,
    bias_hidden := d.b_hidden,
    bias_output := d.b_output }

def NeuralNetwork.forward (σ : ℚ → ℚ) (nn : NeuralNetwork) (inputs : List ℚ) : List ℚ :=
  let hidden_inputs := vecAdd (rowVecMat inputs nn.weights_input_hidden) nn.bias_hidden
  let hidden_outputs := hidden_inputs.map σ
  let final_inputs := vecAdd (rowVecMat hidden_outputs nn.weights_hidden_output) nn.bias_output
  final_inputs.map σ

/-! ## Population tick (src/simulation/society/population.py + src/engine/world.py)

An agent keeps the fields the tick loop reads: its ECS id, age, energy and
the genome traits `metabolism` and `stamina`.  Action selection
(`QLearningSystem.select_action`, whose source file is absent) and the
reward of the world-dependent handlers are abstracted into the parameters
`sel` and `env`; neither influences the death test, which reads only energy
and age. -/

structure Genome where
  metabolism : ℚ
  stamina : ℚ
deriving DecidableEq, Repr

structure Agent where
  id : Nat
  age : Nat
  energy : ℚ
  genome : Genome
deriving DecidableEq, Repr

inductive AAction
  | eat | work | rest | mate | search
deriving DecidableEq, Repr

/-- `Population.execute_action`.  The `rest` branch is fully embedded
(`energy_gain = 10 * stamina`, energy capped at 100, reward
`energy_gain / 20`).  In the sources `try_eat`, `try_mate` and `try_search`
are placeholders returning reward 0 and leaving the agent unchanged;
`try_work` mutates only wallet/workplace components — never the agent's
energy or age — and its reward depends on nearby workplaces (the SpatialGrid
source is absent), so those rewards come from the abstract `env`. -/
def Population.execute_action (env : Agent → AAction → ℚ) (a : Agent) : AAction → Agent × ℚ
  | .rest =>
      let energy_gain := 10 * a.genome.stamina
      ({ a with energy := min 100 (a.energy + energy_gain) }, energy_gain / 20)
  | act => (a, env a act)

/-- The per-agent body of `Population.update` before the death test: execute
the selected action, then `age += 1` and
`energy -= metabolism / stamina`.  The Q-table rewrite between those steps
touches only `genome.q_table`, which no embedded field reads. -/
def Population.stepAgent (sel : Agent → AAction) (env : Agent → AAction → ℚ) (a : Agent) : Agent :=
  let a₁ := (Population.execute_action env a (sel a)).1
  { a₁ with age := a₁.age + 1, energy := a₁.energy - a₁.genome.metabolism / a₁.genome.stamina }

/-- Observable events of one `Population.update` call, in program order:
per-agent processing, `spatial_grid.remove` / `ecs.delete_entity` (the body
of `World.remove_entity`), and `population.remove`. -/
inductive Event
  | step (eid : Nat)
  | removeSpatial (eid : Nat)
  | removeECS (eid : Nat)
  | removePop (eid : Nat)
deriving DecidableEq, Repr

def Event.isStep : Event → Bool
  | .step _ => true
  | _ => false

def Event.isRemoval : Event → Bool
  | .step _ => false
  | _ => true

def Event.isRemovePop : Event → Bool
  | .removePop _ => true
  | _ => false

/-- `World.remove_entity`: guarded by `entity in self.entities`; removes the
entity from the world list, then from the spatial grid, then from the ECS
(the entity-pool release has no observable effect here). -/
def World.remove_entity (w : List Nat) (eid : Nat) : List Nat × List Event :=
  if eid ∈ w then (w.erase eid, [Event.removeSpatial eid, Event.removeECS eid]) else (w, [])

/-- The `for agent in self.population` loop of `Population.update`: step each
agent; when the stepped agent satisfies `energy <= 0 or age > 100`, append it
to `agents_to_remove` AND call `world.remove_entity` immediately.  Returns
(updated population, remaining world entities, removal batch, event trace). -/
def Population.updatePass (sel : Agent → AAction) (env : Agent → AAction → ℚ) :
    List Agent → List Nat → List Agent × List Nat × List Agent × List Event
  | [], w => ([], w, [], [])
  | a :: rest, w =>
      let a' := Population.stepAgent sel env a
      if a'.energy ≤ 0 ∨ a'.age > 100 then
        let rw := World.remove_entity w a'.id
        let rec' := Population.updatePass sel env rest rw.1
        (a' :: rec'.1, rec'.2.1, a' :: rec'.2.2.1, (Event.step a.id :: rw.2) ++ rec'.2.2.2)
      else
        let rec' := Population.updatePass sel env rest w
        (a' :: rec'.1, rec'.2.1, rec'.2.2.1, Event.step a.id :: rec'.2.2.2)

def removeAll (pop batch : List Agent) : List Agent :=
  batch.foldl (fun p a => p.erase a) pop

structure PopState where
  population : List Agent
  worldEntities : List Nat
deriving DecidableEq, Repr

/-- `Population.update`: run the per-agent pass, then the trailing
`for agent in agents_to_remove: self.population.remove(agent)` loop. -/
def Population.update (sel : Agent → AAction) (env : Agent → AAction → ℚ) (st : PopState) :
    PopState × List Event :=
  let r := Population.updatePass sel env st.population st.worldEntities
  (⟨removeAll r.1 r.2.2.1, r.2.1⟩, r.2.2.2 ++ r.2.2.1.map (fun a => Event.removePop a.id))

/-- The C1 claim as stated: every removal event (spatial, ECS or population
list) occurs only after every per-agent step event. -/
def removalOnlyAfterPass (tr : List Event) : Prop :=
  ∀ i j : Fin tr.length, (tr.get i).isRemoval → (tr.get j).isStep → (j : Nat) < (i : Nat)

instance (tr : List Event) : Decidable (removalOnlyAfterPass tr) := by
  unfold removalOnlyAfterPass
  infer_instance

/-! ## Association-list lemmas -/

theorem alGet_alSet_self {κ α : Type} [DecidableEq κ] (l : List (κ × α)) (k : κ) (v : α) :
    alGet (alSet l k v) k = some v := by
  induction l with
  | nil => simp [alSet, alGet]
  | cons hd tl ih =>
      obtain ⟨k', v'⟩ := hd
      by_cases hk : k' = k
      · simp [alSet, hk, alGet]
      · simp [alSet, hk, alGet, ih]

theorem alGet_alErase_self {κ α : Type} [DecidableEq κ] (l : List (κ × α)) (k : κ) :
    alGet (alErase l k) k = none := by
  induction l with
  | nil => simp [alErase, alGet]
  | cons hd tl ih =>
      obtain ⟨k', v'⟩ := hd
      by_cases hk : k' = k
      · simp [alErase, hk, ih]
      · simp [alErase, hk, alGet, ih]

theorem alGet_eraseAllKinds (l : List (String × List (Nat × Component))) (eid : Nat) (k : String) :
    alGet (eraseAllKinds l eid) k = (alGet l k).map (fun tbl => alErase tbl eid) := by
  induction l with
  | nil => simp [eraseAllKinds, alGet]
  | cons hd tl ih =>
      obtain ⟨k', v'⟩ := hd
      by_cases hk : k' = k <;> simp [eraseAllKinds, alGet, hk, ih]

/-! ## EntityStore claims -/

/-- C9: `add_component(id, kind, c)` records the component for any entity id
(assigning `entity_id := id`), whether or not the id is live, and it never
changes the set of live entities — so a subsequent `get_component(id, kind)`
returns the component even when `id` is not a live entity. -/
theorem add_component_records_for_any_id (s : ECS) (eid : Nat) (ctype : String) (c : Component) :
    (s.add_component eid ctype c).get_component eid ctype = some { c with entity_id := eid } ∧
    (s.add_component eid ctype c).entities = s.entities := by
  refine ⟨?_, rfl⟩
  unfold ECS.add_component ECS.get_component
  simp [alGet_alSet_self]

/-- C6 counterexample: `add_component` on a never-created id followed by
`delete_entity` of that id leaves the component observable — `delete_entity`
is a no-op for ids missing from `entities`, so `get_component` does not
return absent after the delete. -/
theorem delete_entity_orphan_component_counterexample :
    ((ECS.init.add_component 5 "tag" ⟨0, 7⟩).delete_entity 5).get_component 5 "tag" ≠ none := by
  decide

/-- C6 (amended): after `delete_entity(id)`, `get_component(id, kind)` is
absent for every kind provided `id` was live at the delete; for a non-live
id the call is a no-op (leaving the store unchanged), so components attached
to non-live ids survive it. -/
theorem delete_entity_live_clears_unknown_noop (s : ECS) (eid : Nat) (ctype : String) :
    (s.delete_entity eid).get_component eid ctype
      = (if eid ∈ s.entities then none else s.get_component eid ctype) ∧
    (eid ∉ s.entities → s.delete_entity eid = s) := by
  by_cases h : eid ∈ s.entities
  · refine ⟨?_, fun hn => absurd h hn⟩
    rw [if_pos h]
    have hd : s.delete_entity eid =
        { s with
          components := eraseAllKinds s.components eid,
          entities := s.entities.erase eid } := by
      simp [ECS.delete_entity, h]
    rw [hd]
    unfold ECS.get_component
    simp only [alGet_eraseAllKinds]
    cases alGet s.components ctype <;> simp [alGet_alErase_self]
  · have hd : s.delete_entity eid = s := by simp [ECS.delete_entity, h]
    exact ⟨by rw [if_neg h, hd], fun _ => hd⟩

/-- C6 (amended) witness: deleting an id that is not live is a no-op on a
concrete store holding an orphan component. -/
theorem delete_entity_live_clears_unknown_noop_witness :
    (ECS.init.add_component 5 "tag" ⟨0, 7⟩).delete_entity 5
      = ECS.init.add_component 5 "tag" ⟨0, 7⟩ :=
  (delete_entity_live_clears_unknown_noop (ECS.init.add_component 5 "tag" ⟨0, 7⟩) 5 "tag").2
    (by decide)

/-- C7: `ECS.update(dt)` invokes every registered system exactly once per
call, in exactly the registration order: the invocation trace after
registering the systems `l` is the prior trace extended by one `(system, dt)`
entry per registration, in order; from the fresh store it is exactly the
registration list. -/
theorem ecs_update_runs_systems_in_registration_order
    (s : ECS) (l : List (String × Nat)) (dt : ℚ) :
    (s.addSystems l).update dt = s.update dt ++ l.map (fun p => (p.2, dt)) ∧
    (ECS.init.addSystems l).update dt = l.map (fun p => (p.2, dt)) := by
  have key : ∀ (l : List (String × Nat)) (s : ECS),
      (s.addSystems l).update dt = s.update dt ++ l.map (fun p => (p.2, dt)) := by
    intro l
    induction l with
    | nil => intro s; simp [ECS.addSystems]
    | cons hd tl ih =>
        intro s
        have hstep : (s.add_system hd.1 hd.2).update dt = s.update dt ++ [(hd.2, dt)] := by
          simp [ECS.add_system, ECS.update]
        calc (s.addSystems (hd :: tl)).update dt
            = ((s.add_system hd.1 hd.2).addSystems tl).update dt := rfl
          _ = (s.add_system hd.1 hd.2).update dt ++ tl.map (fun p => (p.2, dt)) := ih _
          _ = s.update dt ++ (hd :: tl).map (fun p => (p.2, dt)) := by
              rw [hstep]; simp
  refine ⟨key l s, ?_⟩
  have h := key l ECS.init
  simpa [ECS.init, ECS.update] using h

/-! ## np.argmax / np.max lemmas -/

theorem argmaxIdx_lt_length (l : List ℚ) (h : l ≠ []) : argmaxIdx l < l.length := by
  induction l with
  | nil => exact absurd rfl h
  | cons a tl ih =>
      cases tl with
      | nil => simp [argmaxIdx]
      | cons b rest =>
          by_cases hgt : listMax (b :: rest) > a
          · have h2 := ih (by simp)
            simp only [argmaxIdx, if_pos hgt]
            simp only [List.length_cons] at h2 ⊢
            omega
          · simp [argmaxIdx, hgt]

theorem getD_le_listMax (l : List ℚ) (i : Nat) (h : i < l.length) :
    l.getD i 0 ≤ listMax l := by
  induction l generalizing i with
  | nil => simp at h
  | cons a tl ih =>
      cases tl with
      | nil =>
          cases i with
          | zero => simp [listMax]
          | succ j =>
              simp only [List.length_cons, List.length_nil] at h
              omega
      | cons b rest =>
          cases i with
          | zero => simp [listMax]
          | succ j =>
              have hj : j < (b :: rest).length := by simpa using h
              have := ih j hj
              calc (a :: b :: rest).getD (j + 1) 0 = (b :: rest).getD j 0 := by simp
                _ ≤ listMax (b :: rest) := this
                _ ≤ listMax (a :: b :: rest) := by simp [listMax]

theorem getD_argmaxIdx_eq_listMax (l : List ℚ) (h : l ≠ []) :
    l.getD (argmaxIdx l) 0 = listMax l := by
  induction l with
  | nil => exact absurd rfl h
  | cons a tl ih =>
      cases tl with
      | nil => simp [argmaxIdx, listMax]
      | cons b rest =>
          by_cases hgt : listMax (b :: rest) > a
          · have htl := ih (by simp)
            simp only [argmaxIdx, if_pos hgt, List.getD_cons_succ, listMax]
            rw [htl, max_eq_right (le_of_lt hgt)]
          · simp only [argmaxIdx, if_neg hgt, List.getD_cons_zero, listMax]
            rw [max_eq_left (not_lt.mp hgt)]

theorem getD_lt_listMax_of_lt_argmaxIdx (l : List ℚ) (j : Nat) (h : j < argmaxIdx l) :
    l.getD j 0 < listMax l := by
  induction l generalizing j with
  | nil => simp [argmaxIdx] at h
  | cons a tl ih =>
      cases tl with
      | nil => simp [argmaxIdx] at h
      | cons b rest =>
          by_cases hgt : listMax (b :: rest) > a
          · simp only [argmaxIdx, if_pos hgt] at h
            have hmax : listMax (a :: b :: rest) = listMax (b :: rest) := by
              simp only [listMax]
              exact max_eq_right (le_of_lt hgt)
            cases j with
            | zero => simpa [hmax] using hgt
            | succ k =>
                have hk : k < argmaxIdx (b :: rest) := by omega
                have := ih k hk
                simpa [hmax] using this
          · simp [argmaxIdx, hgt] at h

/-! ## Exploration-rate decay (C2) -/

/-- C2 counterexample: from `epsilon = 0.01001 ≥ epsilon_min = 0.01`, a single
training call's decay step multiplies by `0.995` and lands strictly below the
floor `epsilon_min`, so epsilon does become smaller than the configured
floor. -/
theorem epsilon_decay_undershoots_floor_counterexample :
    DQNetwork.epsilon_min ≤ (1001 / 100000 : ℚ) ∧
    DQNetwork.decay_epsilon (1001 / 100000) < DQNetwork.epsilon_min := by
  constructor
  · norm_num [DQNetwork.epsilon_min]
  · rw [DQNetwork.decay_epsilon, if_pos (by norm_num [DQNetwork.epsilon_min])]
    norm_num [DQNetwork.epsilon_min, DQNetwork.epsilon_decay]

/-- C2 (amended): epsilon is multiplied by the decay factor only while it
exceeds `epsilon_min` and is left unchanged once it is at or below the floor;
across any number of training calls starting from
`epsilon ≥ epsilon_min * epsilon_decay` (in particular from any
`epsilon ≥ epsilon_min`), epsilon never falls below
`epsilon_min * epsilon_decay`, though a single step can land strictly below
`epsilon_min` itself. -/
theorem epsilon_decay_floor_invariant (n : Nat) (e : ℚ)
    (h : DQNetwork.epsilon_min * DQNetwork.epsilon_decay ≤ e) :
    DQNetwork.epsilon_min * DQNetwork.epsilon_decay ≤ DQNetwork.decay_epsilon^[n] e ∧
    (∀ x : ℚ, DQNetwork.epsilon_min < x →
      DQNetwork.decay_epsilon x = x * DQNetwork.epsilon_decay) ∧
    (∀ x : ℚ, x ≤ DQNetwork.epsilon_min → DQNetwork.decay_epsilon x = x) := by
  have hstep : ∀ x : ℚ, DQNetwork.epsilon_min * DQNetwork.epsilon_decay ≤ x →
      DQNetwork.epsilon_min * DQNetwork.epsilon_decay ≤ DQNetwork.decay_epsilon x := by
    intro x hx
    unfold DQNetwork.decay_epsilon
    by_cases hgt : x > DQNetwork.epsilon_min
    · rw [if_pos hgt]
      have hd : (0 : ℚ) ≤ DQNetwork.epsilon_decay := by norm_num [DQNetwork.epsilon_decay]
      exact mul_le_mul_of_nonneg_right (le_of_lt hgt) hd
    · rwa [if_neg hgt]
  refine ⟨?_, ?_, ?_⟩
  · induction n with
    | zero => simpa using h
    | succ m ihm =>
        rw [Function.iterate_succ_apply']
        exact hstep _ ihm
  · intro x hx
    unfold DQNetwork.decay_epsilon
    rw [if_pos hx]
  · intro x hx
    unfold DQNetwork.decay_epsilon
    rw [if_neg (not_lt.mpr hx)]

/-- C2 (amended) witness: two training calls from `epsilon = 1` stay at or
above `epsilon_min * epsilon_decay`. -/
theorem epsilon_decay_floor_invariant_witness :
    DQNetwork.epsilon_min * DQNetwork.epsilon_decay ≤ DQNetwork.decay_epsilon^[2] 1 :=
  (epsilon_decay_floor_invariant 2 1
    (by norm_num [DQNetwork.epsilon_min, DQNetwork.epsilon_decay])).1

/-! ## Action selection (C4) -/

/-- C4: with exploration rate 0, `select_action` returns the index of the
maximal q-value, ties broken by the lowest index (every earlier index holds a
strictly smaller value); with exploration rate `p`, whenever the uniform
`random.random()` draw `r` satisfies `r < p` — which happens with probability
`p` — it returns the uniformly drawn action index unchanged. -/
theorem select_action_greedy_and_random (q : List ℚ) (hq : q ≠ []) (r : ℚ) (hr : 0 ≤ r)
    (randIdx : Nat) :
    DQNetwork.select_action 0 r randIdx q = argmaxIdx q ∧
    argmaxIdx q < q.length ∧
    (∀ j, j < q.length → q.getD j 0 ≤ q.getD (argmaxIdx q) 0) ∧
    (∀ j, j < argmaxIdx q → q.getD j 0 < q.getD (argmaxIdx q) 0) ∧
    (∀ p : ℚ, r < p → DQNetwork.select_action p r randIdx q = randIdx) := by
  have hmax := getD_argmaxIdx_eq_listMax q hq
  refine ⟨?_, argmaxIdx_lt_length q hq, ?_, ?_, ?_⟩
  · unfold DQNetwork.select_action
    rw [if_neg (not_lt.mpr hr)]
  · intro j hj
    rw [hmax]
    exact getD_le_listMax q j hj
  · intro j hj
    rw [hmax]
    exact getD_lt_listMax_of_lt_argmaxIdx q j hj
  · intro p hp
    unfold DQNetwork.select_action
    rw [if_pos hp]

/-- C4 witness: on the q-row `[1, 3, 3, 2]` the greedy branch picks index 1
(the first of the two tied maxima), and a draw below the exploration rate
returns the random index 3. -/
theorem select_action_greedy_and_random_witness :
    DQNetwork.select_action 0 (1 / 2) 3 [1, 3, 3, 2] = argmaxIdx [1, 3, 3, 2] ∧
    DQNetwork.select_action (3 / 4) (1 / 2) 3 [1, 3, 3, 2] = 3 ∧
    argmaxIdx [1, 3, 3, 2] = 1 :=
  ⟨(select_action_greedy_and_random [1, 3, 3, 2] (by simp) (1 / 2) (by norm_num) 3).1,
   (select_action_greedy_and_random [1, 3, 3, 2] (by simp) (1 / 2) (by norm_num) 3).2.2.2.2
     (3 / 4) (by norm_num),
   by decide⟩

/-! ## Learning target (C5) -/

/-- C5: the target vector `DQNetwork.train` passes to the gradient step is
the current online prediction with only the selected action's entry replaced
by `reward` when terminal and by `reward + γ * max(next_q)` otherwise, where
`next_q` is the target network's prediction for the next state. -/
theorem train_target_differs_only_at_action (current_q next_q : List ℚ) (action : Nat)
    (reward γ : ℚ) (done : Bool) (ha : action < current_q.length) :
    (DQNetwork.train_target current_q next_q action reward γ done).getD action 0
      = (if done then reward else reward + γ * listMax next_q) ∧
    (∀ j, j ≠ action →
      (DQNetwork.train_target current_q next_q action reward γ done).getD j 0
        = current_q.getD j 0) ∧
    (DQNetwork.train_target current_q next_q action reward γ done).length
      = current_q.length := by
  unfold DQNetwork.train_target
  refine ⟨?_, ?_, by simp⟩
  · rw [List.getD_eq_getElem?_getD, List.getElem?_set_eq_of_lt _ ha]
    rfl
  · intro j hj
    rw [List.getD_eq_getElem?_getD, List.getElem?_set_ne (fun hc => hj hc.symm),
      ← List.getD_eq_getElem?_getD]

/-- C5 witness: a concrete non-terminal transition with `current_q = [4, 5]`,
`next_q = [2, 6]`, action 0, reward 1, discount `1/2` yields target vector
`[4, 5]` overwritten at index 0 with `1 + (1/2) * 6 = 4`. -/
theorem train_target_differs_only_at_action_witness :
    (DQNetwork.train_target [4, 5] [2, 6] 0 1 (1 / 2) false).getD 0 0
      = (if false then (1 : ℚ) else 1 + (1 / 2) * listMax [2, 6]) ∧
    (DQNetwork.train_target [4, 5] [2, 6] 0 1 (1 / 2) false).getD 1 0 = (5 : ℚ) :=
  ⟨(train_target_differs_only_at_action [4, 5] [2, 6] 0 1 (1 / 2) false (by simp)).1,
   (train_target_differs_only_at_action [4, 5] [2, 6] 0 1 (1 / 2) false (by simp)).2.1 1
     (by simp)⟩

/-! ## Serialization round-trip (C8) -/

/-- C8: loading saved weight matrices and bias vectors restores the four
parameter arrays exactly, so the forward pass — and hence `select_action`
with exploration rate 0 on the same state — is identical to the run before
serialization, for every activation and regardless of the parameters the
loading network held before. -/
theorem save_load_roundtrip_preserves_action (σ : ℚ → ℚ) (nn other : NeuralNetwork)
    (d : List (String × String)) (r : ℚ) (hr : 0 ≤ r) (randIdx : Nat) :
    (other.load nn.save).weights_input_hidden = nn.weights_input_hidden ∧
    (other.load nn.save).weights_hidden_output = nn.weights_hidden_output ∧
    (other.load nn.save).bias_hidden = nn.bias_hidden ∧
    (other.load nn.save).bias_output = nn.bias_output ∧
    DQNetwork.select_action 0 r randIdx
        ((other.load nn.save).forward σ (DQNetwork.encode_state d))
      = DQNetwork.select_action 0 r randIdx (nn.forward σ (DQNetwork.encode_state d)) := by
  have hfwd : (other.load nn.save).forward σ (DQNetwork.encode_state d)
      = nn.forward σ (DQNetwork.encode_state d) := rfl
  have hgreedy : ∀ q : List ℚ, DQNetwork.select_action 0 r randIdx q = argmaxIdx q := by
    intro q
    unfold DQNetwork.select_action
    rw [if_neg (not_lt.mpr hr)]
  refine ⟨rfl, rfl, rfl, rfl, ?_⟩
  rw [hgreedy, hgreedy, hfwd]

/-- C8 witness: a concrete network round-trips through save/load and selects
the same action on the empty state dict with exploration rate 0. -/
theorem save_load_roundtrip_preserves_action_witness :
    DQNetwork.select_action 0 0 0
        (((⟨[], [], [], [], 0⟩ : NeuralNetwork).load
          (⟨[[1], [2]], [[3]], [4], [5], 1⟩ : NeuralNetwork).save).forward
          (fun x => x) (DQNetwork.encode_state []))
      = DQNetwork.select_action 0 0 0
        ((⟨[[1], [2]], [[3]], [4], [5], 1⟩ : NeuralNetwork).forward
          (fun x => x) (DQNetwork.encode_state [])) :=
  (save_load_roundtrip_preserves_action (fun x => x) ⟨[[1], [2]], [[3]], [4], [5], 1⟩
    ⟨[], [], [], [], 0⟩ [] 0 (le_refl 0) 0).2.2.2.2

/-! ## State encoding (C10) -/

theorem encode_group_isOneHot3 (c1 c2 : Prop) [Decidable c1] [Decidable c2] :
    isOneHot3 (if c1 then [(1 : ℚ), 0, 0] else if c2 then [0, 1, 0] else [0, 0, 1]) := by
  unfold isOneHot3
  split_ifs <;> simp

theorem encode_group_drop3 (c1 c2 : Prop) [Decidable c1] [Decidable c2] (rest : List ℚ) :
    ((if c1 then [(1 : ℚ), 0, 0] else if c2 then [0, 1, 0] else [0, 0, 1]) ++ rest).drop 3
      = rest := by
  split_ifs <;> rfl

theorem encode_group_take3 (c1 c2 : Prop) [Decidable c1] [Decidable c2] (rest : List ℚ)
    (h1 : ¬c1) (h2 : ¬c2) :
    ((if c1 then [(1 : ℚ), 0, 0] else if c2 then [0, 1, 0] else [0, 0, 1]) ++ rest).take 3
      = [0, 0, 1] := by
  rw [if_neg h1, if_neg h2]
  rfl

theorem encode_group_length (c1 c2 : Prop) [Decidable c1] [Decidable c2] :
    (if c1 then [(1 : ℚ), 0, 0] else if c2 then [0, 1, 0] else [0, 0, 1]).length = 3 := by
  split_ifs <;> rfl

/-- C10: `encode_state` always yields exactly 12 rationals, the concatenation
of four one-hot groups of three (hunger, energy, money, mood in that order),
and a missing or unrecognized value falls into the last bucket of its group
(the bucket labelled high for hunger/energy/money and positive for mood). -/
theorem encode_state_four_one_hot_groups (d : List (String × String)) :
    (DQNetwork.encode_state d).length = 12 ∧
    (∃ g1 g2 g3 g4, isOneHot3 g1 ∧ isOneHot3 g2 ∧ isOneHot3 g3 ∧ isOneHot3 g4 ∧
      DQNetwork.encode_state d = g1 ++ g2 ++ g3 ++ g4) ∧
    (alGet d "hunger" ≠ some "low" → alGet d "hunger" ≠ some "medium" →
      (DQNetwork.encode_state d).take 3 = [0, 0, 1]) ∧
    (alGet d "energy" ≠ some "low" → alGet d "energy" ≠ some "medium" →
      ((DQNetwork.encode_state d).drop 3).take 3 = [0, 0, 1]) ∧
    (alGet d "money" ≠ some "low" → alGet d "money" ≠ some "medium" →
      ((DQNetwork.encode_state d).drop 6).take 3 = [0, 0, 1]) ∧
    (alGet d "mood" ≠ some "negative" → alGet d "mood" ≠ some "neutral" →
      (DQNetwork.encode_state d).drop 9 = [0, 0, 1]) := by
  unfold DQNetwork.encode_state
  refine ⟨?_, ⟨_, _, _, _, encode_group_isOneHot3 _ _, encode_group_isOneHot3 _ _,
    encode_group_isOneHot3 _ _, encode_group_isOneHot3 _ _, rfl⟩, ?_, ?_, ?_, ?_⟩
  · simp [encode_group_length]
  · intro h1 h2
    rw [List.append_assoc, List.append_assoc]
    exact encode_group_take3 _ _ _ h1 h2
  · intro h1 h2
    rw [List.append_assoc, List.append_assoc, encode_group_drop3]
    exact encode_group_take3 _ _ _ h1 h2
  · intro h1 h2
    rw [List.append_assoc, List.append_assoc,
      show (6 : Nat) = 3 + 3 by rfl, ← List.drop_drop,
      encode_group_drop3, encode_group_drop3]
    exact encode_group_take3 _ _ _ h1 h2
  · intro h1 h2
    rw [List.append_assoc, List.append_assoc,
      show (9 : Nat) = 6 + 3 by rfl, ← List.drop_drop,
      show (6 : Nat) = 3 + 3 by rfl, ← List.drop_drop,
      encode_group_drop3, encode_group_drop3, encode_group_drop3,
      if_neg h1, if_neg h2]

/-- C10 witness: the empty state dict (every key missing) encodes to the last
bucket of every group. -/
theorem encode_state_four_one_hot_groups_witness :
    (DQNetwork.encode_state []).length = 12 ∧
    (DQNetwork.encode_state []).take 3 = [0, 0, 1] ∧
    (DQNetwork.encode_state []).drop 9 = [0, 0, 1] :=
  ⟨(encode_state_four_one_hot_groups []).1,
   (encode_state_four_one_hot_groups []).2.2.1 (by simp [alGet]) (by simp [alGet]),
   (encode_state_four_one_hot_groups []).2.2.2.2.2 (by simp [alGet]) (by simp [alGet])⟩

/-! ## Rest action (C3) -/

/-- C3 counterexample: with stamina 2 and energy 95 the Rest handler caps the
energy at 100 (actual gain 5) but still returns reward
`energy_gain / 20 = 20 / 20 = 1`, not the actually-gained `5 / 20`. -/
theorem rest_reward_ignores_cap_counterexample :
    (Population.execute_action (fun _ _ => 0) ⟨0, 0, 95, ⟨1, 2⟩⟩ .rest).1.energy = 100 ∧
    (Population.execute_action (fun _ _ => 0) ⟨0, 0, 95, ⟨1, 2⟩⟩ .rest).2 = 1 ∧
    ((100 : ℚ) - 95) / 20 ≠ 1 := by
  refine ⟨?_, ?_, by norm_num⟩
  · show min 100 (95 + 10 * 2 : ℚ) = 100
    norm_num
  · show (10 * 2 : ℚ) / 20 = 1
    norm_num

/-- C3 (amended): Rest sets energy to `min(100, e + 10 * stamina)` and
returns reward `(10 * stamina) / 20` — the uncapped gain over the fixed
scale 20, which equals the energy actually gained over 20 only when the cap
does not bind; the stamina-2, energy-50 scenario ends with energy 70 and
reward 1. -/
theorem rest_energy_capped_reward_uncapped (env : Agent → AAction → ℚ) (a : Agent) :
    (Population.execute_action env a .rest).1.energy
      = min 100 (a.energy + 10 * a.genome.stamina) ∧
    (Population.execute_action env a .rest).2 = (10 * a.genome.stamina) / 20 ∧
    (Population.execute_action env ⟨0, 0, 50, ⟨1, 2⟩⟩ .rest).1.energy = 70 ∧
    (Population.execute_action env ⟨0, 0, 50, ⟨1, 2⟩⟩ .rest).2 = 1 := by
  refine ⟨rfl, rfl, ?_, ?_⟩
  · show min 100 (50 + 10 * 2 : ℚ) = 70
    norm_num
  · show (10 * 2 : ℚ) / 20 = 1
    norm_num

/-! ## Population tick removal phases (C1) -/

theorem remove_entity_events_not_removePop (w : List Nat) (eid : Nat) :
    ∀ e ∈ (World.remove_entity w eid).2, e.isRemovePop = false := by
  intro e he
  unfold World.remove_entity at he
  split_ifs at he with h
  · simp only [List.mem_cons, List.not_mem_nil, or_false] at he
    rcases he with h1 | h1 <;> (rw [h1]; rfl)
  · cases he

/-- Structure of the per-agent pass: the updated population is the stepped
population; the removal batch is exactly the stepped agents satisfying the
death test; the pass trace contains no population-list removal event; and
every agent's step event is in the pass trace. -/
theorem updatePass_phases (sel : Agent → AAction) (env : Agent → AAction → ℚ)
    (pop : List Agent) (w : List Nat) :
    (Population.updatePass sel env pop w).1 = pop.map (Population.stepAgent sel env) ∧
    (Population.updatePass sel env pop w).2.2.1
      = (pop.map (Population.stepAgent sel env)).filter
          (fun a => decide (a.energy ≤ 0 ∨ a.age > 100)) ∧
    (∀ e ∈ (Population.updatePass sel env pop w).2.2.2, e.isRemovePop = false) ∧
    (∀ a ∈ pop, Event.step a.id ∈ (Population.updatePass sel env pop w).2.2.2) := by
  induction pop generalizing w with
  | nil =>
      refine ⟨rfl, rfl, ?_, ?_⟩
      · intro e he; cases he
      · intro a ha; cases ha
  | cons a rest ih =>
      by_cases hc : (Population.stepAgent sel env a).energy ≤ 0 ∨
          (Population.stepAgent sel env a).age > 100
      · have heq : Population.updatePass sel env (a :: rest) w =
            ((Population.stepAgent sel env a) ::
              (Population.updatePass sel env rest
                (World.remove_entity w (Population.stepAgent sel env a).id).1).1,
             (Population.updatePass sel env rest
                (World.remove_entity w (Population.stepAgent sel env a).id).1).2.1,
             (Population.stepAgent sel env a) ::
              (Population.updatePass sel env rest
                (World.remove_entity w (Population.stepAgent sel env a).id).1).2.2.1,
             (Event.step a.id ::
                (World.remove_entity w (Population.stepAgent sel env a).id).2) ++
              (Population.updatePass sel env rest
                (World.remove_entity w (Population.stepAgent sel env a).id).1).2.2.2) := by
          simp only [Population.updatePass]
          rw [if_pos hc]
        obtain ⟨ih1, ih2, ih3, ih4⟩ :=
          ih (World.remove_entity w (Population.stepAgent sel env a).id).1
        refine ⟨?_, ?_, ?_, ?_⟩
        · rw [heq]; simp only [List.map_cons]; rw [ih1]
        · rw [heq]
          simp only [List.map_cons]
          rw [List.filter_cons_of_pos (by simpa using hc), ih2]
        · rw [heq]
          intro e he
          simp only [List.cons_append, List.mem_cons, List.mem_append] at he
          rcases he with h1 | h2 | h3
          · rw [h1]; rfl
          · exact remove_entity_events_not_removePop _ _ e h2
          · exact ih3 e h3
        · rw [heq]
          intro x hx
          rcases List.mem_cons.mp hx with h1 | h2
          · rw [h1]
            simp
          · have := ih4 x h2
            simp only [List.cons_append, List.mem_cons, List.mem_append]
            right; right; exact this
      · have heq : Population.updatePass sel env (a :: rest) w =
            ((Population.stepAgent sel env a) ::
              (Population.updatePass sel env rest w).1,
             (Population.updatePass sel env rest w).2.1,
             (Population.updatePass sel env rest w).2.2.1,
             Event.step a.id :: (Population.updatePass sel env rest w).2.2.2) := by
          simp only [Population.updatePass]
          rw [if_neg hc]
        obtain ⟨ih1, ih2, ih3, ih4⟩ := ih w
        refine ⟨?_, ?_, ?_, ?_⟩
        · rw [heq]; simp only [List.map_cons]; rw [ih1]
        · rw [heq]
          simp only [List.map_cons]
          rw [List.filter_cons_of_neg (by simpa using hc), ih2]
        · rw [heq]
          intro e he
          rcases List.mem_cons.mp he with h1 | h2
          · rw [h1]; rfl
          · exact ih3 e h2
        · rw [heq]
          intro x hx
          rcases List.mem_cons.mp hx with h1 | h2
          · rw [h1]; simp
          · exact List.mem_cons_of_mem _ (ih4 x h2)

/-- C1 counterexample: with two agents where the first dies mid-pass, the
tick's event trace interleaves the EntityStore/SpatialIndex removal of the
first agent BEFORE the second agent's per-agent step, refuting the claim
that all removal happens only after the full per-agent pass. -/
theorem population_update_world_removal_mid_pass_counterexample :
    ¬ removalOnlyAfterPass
      (Population.update (fun _ => AAction.search) (fun _ _ => 0)
        ⟨[⟨0, 0, 1 / 2, ⟨1, 1⟩⟩, ⟨1, 0, 100, ⟨1, 1⟩⟩], [0, 1]⟩).2 := by
  have htr : (Population.update (fun _ => AAction.search) (fun _ _ => 0)
        ⟨[⟨0, 0, 1 / 2, ⟨1, 1⟩⟩, ⟨1, 0, 100, ⟨1, 1⟩⟩], [0, 1]⟩).2
      = [Event.step 0, Event.removeSpatial 0, Event.removeECS 0, Event.step 1,
         Event.removePop 0] := by
    norm_num [Population.update, Population.updatePass, Population.stepAgent,
      Population.execute_action, World.remove_entity, removeAll]
  intro h
  rw [htr] at h
  have h13 := h ⟨1, by norm_num⟩ ⟨3, by norm_num⟩ rfl rfl
  norm_num at h13

/-- C1 (amended): agents whose energy is ≤ 0 or whose age exceeds 100 after
their per-agent step are collected into a removal batch, and their removal
from the POPULATION LIST happens only after the full per-agent pass (the
trace is a pass phase containing every step event and no population-removal
event, followed by exactly the batch's population-removal events); their
removal from the EntityStore and SpatialIndex, however, is performed by
`world.remove_entity` DURING the pass, at the moment the death condition is
detected. -/
theorem population_update_batches_only_pop_removal (sel : Agent → AAction)
    (env : Agent → AAction → ℚ) (st : PopState) :
    ∃ passTr,
      (Population.update sel env st).2
        = passTr ++ ((st.population.map (Population.stepAgent sel env)).filter
            (fun a => decide (a.energy ≤ 0 ∨ a.age > 100))).map
              (fun a => Event.removePop a.id) ∧
      (∀ e ∈ passTr, e.isRemovePop = false) ∧
      (∀ a ∈ st.population, Event.step a.id ∈ passTr) ∧
      (Population.update sel env st).1.population
        = removeAll (st.population.map (Population.stepAgent sel env))
            ((st.population.map (Population.stepAgent sel env)).filter
              (fun a => decide (a.energy ≤ 0 ∨ a.age > 100))) := by
  obtain ⟨h1, h2, h3, h4⟩ := updatePass_phases sel env st.population st.worldEntities
  refine ⟨(Population.updatePass sel env st.population st.worldEntities).2.2.2,
    ?_, h3, h4, ?_⟩
  · show (Population.updatePass sel env st.population st.worldEntities).2.2.2 ++
        (Population.updatePass sel env st.population st.worldEntities).2.2.1.map
          (fun a => Event.removePop a.id) = _
    rw [h2]
  · show removeAll (Population.updatePass sel env st.population st.worldEntities).1
        (Population.updatePass sel env st.population st.worldEntities).2.2.1 = _
    rw [h1, h2]

end Society
